import Mathlib

/-!
# akinfelami/sync: the daylist service (`main.go`)

A shallow embedding of `main.go` and the properties of its three pieces:
the auth gate (`authMiddleware`, `authRedirectHandler`), the playlist
locator (`getPlaylists`) and the track extractor (`getDaylist`).

* Go strings that reach the matcher are playlist names decoded from JSON,
  hence valid UTF-8; they are embedded as Lean `String`s and the matcher
  runs over their code points, as Go's `regexp` does.
* A Go `(*T, error)` result is a `Reply T`: the pointer is an `Option`
  (`none` is `nil`) and so is the error.
* A handler produces a trace of the effects it performs on the gin context
  and on the remote API, and either returns or panics (a nil dereference).
* The process state is the package-level variable `client`; requests are
  served one after another (every access to `client` is one atomic
  `getClient` or `setClient` under `mux`).
-/

namespace Sync

/-! ## The regular expression of `getPlaylists` -/

/-- Regular expressions, as far as the pattern of `getPlaylists` needs them. -/
inductive Regex where
  /-- The assertion `^` without the `m` flag: at the beginning of the text. -/
  | beginText : Regex
  /-- The assertion `$` without the `m` flag: at the end of the text. -/
  | endText : Regex
  /-- One literal character. -/
  | lit (c : Char) : Regex
  /-- One character of a class (`\s`, `\W`, `.`). -/
  | cls (p : Char → Bool) : Regex
  /-- Concatenation. -/
  | cat (r s : Regex) : Regex
  /-- Zero or more repetitions, `r*`. -/
  | star (r : Regex) : Regex

/-- Perl class `\s` of Go's `regexp/syntax`: `[\t\n\f\r ]`. -/
def isSpace (c : Char) : Bool :=
  c = '\t' || c = '\n' || c = '\x0c' || c = '\r' || c = ' '

/-- Perl class `\w` of Go's `regexp/syntax`: `[0-9A-Za-z_]`. -/
def isWord (c : Char) : Bool :=
  ('0' ≤ c && c ≤ '9') || ('A' ≤ c && c ≤ 'Z') || ('a' ≤ c && c ≤ 'z') || c = '_'

/-- Perl class `\W`: the complement of `\w`. -/
def isNotWord (c : Char) : Bool := !isWord c

/-- The class of `.` without the `s` flag: every character but the line feed. -/
def isAnyNotNL (c : Char) : Bool := !(c = '\n')

/-- A place in the text under scan: whether it is the beginning of the text,
and the input that remains. -/
abbrev Cursor := Bool × List Char

/-- All cursors reached by at most `n` successive runs of `f` from `p`. -/
def iter (f : Cursor → List Cursor) : Nat → Cursor → List Cursor
  | 0, p => [p]
  | n + 1, p => p :: (f p).flatMap (iter f n)

/-- All cursors at which a match of the expression begun at `p` can end. -/
def Regex.ends : Regex → Cursor → List Cursor
  | .beginText, p => if p.1 then [p] else []
  | .endText, p => if p.2.isEmpty then [p] else []
  | .lit c, p =>
    match p.2 with
    | [] => []
    | x :: xs => if x = c then [(false, xs)] else []
  | .cls f, p =>
    match p.2 with
    | [] => []
    | x :: xs => if f x then [(false, xs)] else []
  | .cat r s, p => (r.ends p).flatMap s.ends
  | .star r, p => iter r.ends p.2.length p

/-- Every place of the text at which a match may begin. -/
def starts : List Char → List Cursor
  | [] => [(true, [])]
  | x :: xs => (true, x :: xs) :: xs.tails.map (fun t => (false, t))

/-- Go's `(*Regexp).MatchString`: whether the text contains any match of the
expression. -/
def MatchString (re : Regex) (s : String) : Bool :=
  (starts s.toList).any (fun p => !(re.ends p).isEmpty)

/-- Concatenation of a list of expressions. -/
def Regex.seq : List Regex → Regex → Regex
  | [], e => e
  | r :: rs, e => .cat r (Regex.seq rs e)

/-- The literal `daylist`. -/
def daylistWord : List Char := ['d', 'a', 'y', 'l', 'i', 's', 't']

/-- The pattern compiled in `getPlaylists`: `^daylist\s*\W\s*.*$`. -/
def daylistPattern : Regex :=
  .cat .beginText
    (Regex.seq (daylistWord.map Regex.lit)
      (.cat (.star (.cls isSpace))
        (.cat (.cls isNotWord)
          (.cat (.star (.cls isSpace))
            (.cat (.star (.cls isAnyNotNL)) .endText)))))

/-- The relational meaning of an expression: `Spans r p q` when a match of `r`
begun at cursor `p` can end at cursor `q`. -/
inductive Spans : Regex → Cursor → Cursor → Prop where
  | beginText (s : List Char) : Spans .beginText (true, s) (true, s)
  | endText (b : Bool) : Spans .endText (b, []) (b, [])
  | lit (b : Bool) (c : Char) (s : List Char) : Spans (.lit c) (b, c :: s) (false, s)
  | cls (f : Char → Bool) (b : Bool) (x : Char) (s : List Char) (h : f x = true) :
      Spans (.cls f) (b, x :: s) (false, s)
  | cat (r s : Regex) (p m q : Cursor) (h1 : Spans r p m) (h2 : Spans s m q) :
      Spans (.cat r s) p q
  | starNil (r : Regex) (p : Cursor) : Spans (.star r) p p
  | starCons (r : Regex) (p m q : Cursor) (h1 : Spans r p m) (h2 : Spans (.star r) m q) :
      Spans (.star r) p q

/-- What the contract of the locator says of an accepted name: the literal
`daylist`, whitespace, one non-word character, whitespace, then anything. -/
def ClaimedShape (name : List Char) : Prop :=
  ∃ (ws1 : List Char) (c : Char) (ws2 tail : List Char),
    name = daylistWord ++ ws1 ++ [c] ++ ws2 ++ tail ∧
      (∀ x ∈ ws1, isSpace x = true) ∧ isNotWord c = true ∧ (∀ x ∈ ws2, isSpace x = true)

/-- The shape of `ClaimedShape` with a tail that holds no line feed. -/
def LineShape (name : List Char) : Prop :=
  ∃ (ws1 : List Char) (c : Char) (ws2 tail : List Char),
    name = daylistWord ++ ws1 ++ [c] ++ ws2 ++ tail ∧
      (∀ x ∈ ws1, isSpace x = true) ∧ isNotWord c = true ∧ (∀ x ∈ ws2, isSpace x = true) ∧
      '\n' ∉ tail

/-! ## Data model -/

/-- Go's `Track` of `main.go`. -/
structure Track where
  Artists : List String
  Title : String
  deriving DecidableEq, Repr

/-- Go's `Playlist` of `main.go`. -/
structure Playlist where
  Tracks : List Track
  deriving DecidableEq, Repr

/-- The fields of `spotify.SimpleArtist` that `main.go` reads. -/
structure SimpleArtist where
  Name : String
  deriving DecidableEq, Repr

/-- The fields of `spotify.FullTrack` that `main.go` reads. -/
structure FullTrack where
  Name : String
  Artists : List SimpleArtist
  deriving DecidableEq, Repr

/-- The type `spotify.PlaylistItemTrack`: `Track` is a `*FullTrack`, nil for
an item that is not a track. -/
structure PlaylistItemTrack where
  Track : Option FullTrack
  deriving DecidableEq, Repr

/-- The fields of `spotify.PlaylistItem` that `main.go` reads. -/
structure PlaylistItem where
  Track : PlaylistItemTrack
  deriving DecidableEq, Repr

/-- The fields of `spotify.PlaylistItemPage` that `main.go` reads. -/
structure PlaylistItemPage where
  Items : List PlaylistItem
  deriving DecidableEq, Repr

/-- The fields of `spotify.SimplePlaylist` that `main.go` reads. -/
structure SimplePlaylist where
  ID : String
  Name : String
  deriving DecidableEq, Repr

/-- The fields of `spotify.SimplePlaylistPage` that `main.go` reads. -/
structure SimplePlaylistPage where
  Playlists : List SimplePlaylist
  deriving DecidableEq, Repr

/-- The fields of `spotify.PrivateUser` that `main.go` reads. -/
structure PrivateUser where
  DisplayName : String
  deriving DecidableEq, Repr

/-- A Go result `(*T, error)`: either part may be nil. -/
structure Reply (α : Type) where
  value : Option α
  err : Option String

/-- What the provider answers to the calls made while one request is served. -/
structure Upstream where
  /-- Result of `auth.Token`. -/
  token : Reply String
  /-- Result of `client.CurrentUser`. -/
  currentUser : Reply PrivateUser
  /-- Result of `client.CurrentUsersPlaylists`. -/
  playlists : Reply SimplePlaylistPage
  /-- Result of `client.GetPlaylistItems` for an identifier. -/
  items : String → Reply PlaylistItemPage

/-- A `*spotify.Client`, as built by `spotify.New(auth.Client(c, token))`
from a token that may be nil. -/
structure Client where
  token : Option String
  deriving DecidableEq, Repr

/-- The bodies `gin.H` written by the handlers: the keys `message`, `error`
and `data`. -/
structure H where
  message : Option String
  error : Option String
  data : Option Playlist
  deriving DecidableEq, Repr

/-- Calls to the provider. -/
inductive Call where
  | currentUsersPlaylists (limit : Nat) : Call
  | getPlaylistItems (id : String) : Call
  | token : Call
  | currentUser : Call
  deriving DecidableEq, Repr

/-- Effects of a handler, in the order they happen. -/
inductive Event where
  /-- Effect of `c.JSON(status, body)`. -/
  | json (status : Nat) (body : H) : Event
  /-- Effect of `c.Redirect(status, url)`. -/
  | redirect (status : Nat) (url : String) : Event
  /-- Effect of `c.Abort()`. -/
  | abort : Event
  /-- Effect of `log.Println(err)`. -/
  | log (err : String) : Event
  /-- A call to the provider. -/
  | call (c : Call) : Event
  deriving DecidableEq, Repr

/-- How a piece of handler code ends: it returns a value, or it panics; in
both cases after the effects of `trace`. -/
inductive Run (α : Type) where
  | done (trace : List Event) (value : α) : Run α
  | panic (trace : List Event) : Run α
  deriving DecidableEq, Repr

/-- The effects of a run. -/
def Run.trace {α : Type} : Run α → List Event
  | .done t _ => t
  | .panic t => t

/-- Whether a run ended in a panic. -/
def Run.panicked {α : Type} : Run α → Bool
  | .done _ _ => false
  | .panic _ => true

/-- The statuses of the JSON responses written in a trace. -/
def jsonStatuses : List Event → List Nat
  | [] => []
  | .json status _ :: es => status :: jsonStatuses es
  | _ :: es => jsonStatuses es

/-- The identifiers whose items were requested in a trace. -/
def itemRequests : List Event → List String
  | [] => []
  | .call (.getPlaylistItems id) :: es => id :: itemRequests es
  | _ :: es => itemRequests es

/-- The redirects written in a trace. -/
def redirects : List Event → List (Nat × String)
  | [] => []
  | .redirect status url :: es => (status, url) :: redirects es
  | _ :: es => redirects es

/-- Constant `http.StatusOK`. -/
def StatusOK : Nat := 200

/-- Constant `http.StatusTemporaryRedirect`. -/
def StatusTemporaryRedirect : Nat := 307

/-- Constant `http.StatusForbidden`. -/
def StatusForbidden : Nat := 403

/-- Constant `http.StatusInternalServerError`. -/
def StatusInternalServerError : Nat := 500

/-- The package-level variable `state`. -/
def state : String := "abc123"

/-! ## Process state and handlers -/

/-- The package-level variable `client` (guarded by `mux`); `none` is nil. -/
structure Process where
  client : Option Client
  deriving DecidableEq, Repr

/-- The process state at start: `client` is nil. -/
def Process.init : Process := ⟨none⟩

/-- Go's `setClient`. -/
def setClient (c : Option Client) (_ : Process) : Process := ⟨c⟩

/-- Go's `getClient`. -/
def getClient (p : Process) : Option Client := p.client

/-- The loop of `getPlaylists` over `response.Playlists`, with the final
`return ""`. -/
def scanPlaylists : List SimplePlaylist → String
  | [] => ""
  | playlist :: rest =>
    if MatchString daylistPattern playlist.Name then playlist.ID else scanPlaylists rest

/-- Go's `getPlaylists`. A call on a nil `client` panics. After a failed fetch
the 500 body is written and the error logged, and the code goes on to read
`response.Playlists`, which panics when `response` is nil. -/
def getPlaylists (p : Process) (up : Upstream) : Run String :=
  match getClient p with
  | none => .panic []
  | some _ =>
    let t := [Event.call (.currentUsersPlaylists 50)]
    let t :=
      match up.playlists.err with
      | some err =>
        t ++ [Event.json StatusInternalServerError ⟨some "Internal Server Error", none, none⟩,
          Event.log err]
      | none => t
    match up.playlists.value with
    | none => .panic t
    | some response => .done t (scanPlaylists response.Playlists)

/-- The inner loop of `getDaylist`: `artists = append(artists, artist.Name)`. -/
def appendArtists (artists : List String) : List SimpleArtist → List String
  | [] => artists
  | artist :: rest => appendArtists (artists ++ [artist.Name]) rest

/-- The outer loop of `getDaylist` over `response.Items`; `none` is the panic
of reading `item.Track.Track` when it is nil. -/
def appendTracks (tracks : List Track) : List PlaylistItem → Option (List Track)
  | [] => some tracks
  | item :: rest =>
    match item.Track.Track with
    | none => none
    | some track =>
      appendTracks (tracks ++ [⟨appendArtists [] track.Artists, track.Name⟩]) rest

/-- Go's `getDaylist`. A panic of `getPlaylists` goes up through it. -/
def getDaylist (p : Process) (up : Upstream) : Run Unit :=
  let client := getClient p
  match getPlaylists p up with
  | .panic t => .panic t
  | .done t playlistID =>
    if playlistID = "" then
      .done (t ++ [Event.json StatusOK
        ⟨some "Sorry, We couldn't find a daylist playlist", none, none⟩]) ()
    else
      match client with
      | none => .panic t
      | some _ =>
        let r := up.items playlistID
        let t := t ++ [Event.call (.getPlaylistItems playlistID)]
        match r.err with
        | some err =>
          .done (t ++ [Event.json StatusInternalServerError
            ⟨some "Internal Server Error", none, none⟩, Event.log err]) ()
        | none =>
          match r.value with
          | none => .panic t
          | some response =>
            match appendTracks [] response.Items with
            | none => .panic t
            | some tracks =>
              .done (t ++ [Event.json 200 ⟨some "success", none, some ⟨tracks⟩⟩]) ()

/-- The authorization URL `auth.AuthURL(state)`, given the function that
builds it. -/
def authURL (AuthURL : String → String) : String := AuthURL state

/-- Go's `authMiddleware` followed by the rest of the handler chain `next`
(run by `c.Next()`); after `c.Abort()` the rest of the chain does not run. -/
def authMiddleware (AuthURL : String → String) (next : Process → Run Unit) (p : Process) :
    Run Unit :=
  if getClient p = none then
    .done [Event.redirect StatusTemporaryRedirect (authURL AuthURL), Event.abort] ()
  else
    next p

/-- Go's `authRedirectHandler`: the new process state and the run. -/
def authRedirectHandler (p : Process) (up : Upstream) : Process × Run Unit :=
  let t := [Event.call .token]
  let t :=
    match up.token.err with
    | some _ => t ++ [Event.json StatusForbidden ⟨none, some "Couldn't get token", none⟩]
    | none => t
  let client : Client := ⟨up.token.value⟩
  let p := setClient (some client) p
  let t := t ++ [Event.call .currentUser]
  let t :=
    match up.currentUser.err with
    | some _ =>
      t ++ [Event.json StatusInternalServerError ⟨some "Internal Server Error", none, none⟩]
    | none => t
  match up.currentUser.value with
  | none => (p, .panic t)
  | some user =>
    (p, .done (t ++ [Event.json StatusOK ⟨some ("Welcome " ++ user.DisplayName), none, none⟩]) ())

/-- A request to one of the three routes of `main`, with the answers of the
provider while it is served. -/
inductive Request where
  | root : Request
  | callback (up : Upstream) : Request
  | daylist (up : Upstream) : Request

/-- The router of `main`: the new process state and the run of the handler
chain of the route. A panic ends the request only (`gin.Default` installs the
recovery middleware): what was stored in `client` before it stays. -/
def serve (AuthURL : String → String) (p : Process) : Request → Process × Run Unit
  | .root => (p, .done [Event.json 200 ⟨some "Hello World!", none, none⟩] ())
  | .callback up => authRedirectHandler p up
  | .daylist up => (p, authMiddleware AuthURL (fun q => getDaylist q up) p)

/-- The process state after a sequence of requests. -/
def serveAll (AuthURL : String → String) : Process → List Request → Process
  | p, [] => p
  | p, r :: rs => serveAll AuthURL (serve AuthURL p r).1 rs

/-- A callback whose token exchange succeeds: `auth.Token` returns a token
and no error. -/
def Request.isSuccessfulCallback : Request → Bool
  | .callback up => up.token.err.isNone && up.token.value.isSome
  | _ => false

/-! ## Sample data -/

/-- A page of three playlists, the second of which is a daylist. -/
def samplePlaylists : SimplePlaylistPage :=
  ⟨[⟨"id1", "Discover Weekly"⟩, ⟨"id2", "daylist • chill monday morning"⟩,
    ⟨"id3", "mydaylist"⟩]⟩

/-- A page of three playlists, none of which is a daylist. -/
def otherPlaylists : SimplePlaylistPage :=
  ⟨[⟨"id1", "Discover Weekly"⟩, ⟨"id3", "mydaylist"⟩, ⟨"id4", "Daylist - mix"⟩]⟩

/-- A page of two items, each carrying a track. -/
def sampleItems : PlaylistItemPage :=
  ⟨[⟨⟨some ⟨"Song A", [⟨"Ann"⟩, ⟨"Bob"⟩]⟩⟩⟩, ⟨⟨some ⟨"Song B", [⟨"Cy"⟩]⟩⟩⟩]⟩

/-- A provider that answers every call. -/
def sampleUpstream : Upstream :=
  ⟨⟨some "token", none⟩, ⟨some ⟨"Ann"⟩, none⟩, ⟨some samplePlaylists, none⟩,
    fun _ => ⟨some sampleItems, none⟩⟩

/-- A provider whose playlists hold no daylist. -/
def otherUpstream : Upstream :=
  ⟨⟨some "token", none⟩, ⟨some ⟨"Ann"⟩, none⟩, ⟨some otherPlaylists, none⟩,
    fun _ => ⟨some sampleItems, none⟩⟩

/-- A provider that fails every call: each returns nil and an error. -/
def failingUpstream : Upstream :=
  ⟨⟨none, some "token error"⟩, ⟨none, some "user error"⟩, ⟨none, some "playlists error"⟩,
    fun _ => ⟨none, some "items error"⟩⟩

/-- A provider that fails the item call only. -/
def itemFailingUpstream : Upstream :=
  ⟨⟨some "token", none⟩, ⟨some ⟨"Ann"⟩, none⟩, ⟨some samplePlaylists, none⟩,
    fun _ => ⟨none, some "items error"⟩⟩

/-- A process whose `client` is set. -/
def loggedIn : Process := ⟨some ⟨some "token"⟩⟩

/-! ## Lemmas on the matcher -/

theorem mem_iter_cls (f : Char → Bool) (n : Nat) (p q : Cursor) :
    q ∈ iter (Regex.cls f).ends n p ↔
      ∃ ws : List Char, ws.length ≤ n ∧ (∀ x ∈ ws, f x = true) ∧ p.2 = ws ++ q.2 ∧
        q.1 = (decide (ws = []) && p.1) := by
  induction n generalizing p with
  | zero =>
    obtain ⟨b, s⟩ := p
    obtain ⟨b2, t⟩ := q
    simp only [iter, List.mem_singleton, Prod.mk.injEq]
    constructor
    · rintro ⟨rfl, rfl⟩
      exact ⟨[], by simp⟩
    · rintro ⟨ws, hl, -, hs, hb⟩
      have : ws = [] := List.length_eq_zero.mp (Nat.le_zero.mp hl)
      subst this
      simp at hs hb
      exact ⟨hb, hs.symm⟩
  | succ n ih =>
    obtain ⟨b, s⟩ := p
    obtain ⟨b2, t⟩ := q
    simp only [iter, List.mem_cons, List.mem_flatMap, Prod.mk.injEq]
    constructor
    · rintro (⟨rfl, rfl⟩ | ⟨m, hm, hq⟩)
      · exact ⟨[], by simp⟩
      · cases s with
        | nil => simp [Regex.ends] at hm
        | cons x xs =>
          by_cases hx : f x = true
          · simp only [Regex.ends, hx, if_true, List.mem_singleton] at hm
            subst hm
            obtain ⟨ws, hl, hall, hs, hb⟩ := (ih _).mp hq
            refine ⟨x :: ws, by simpa using hl, ?_, by simpa using hs, by simpa using hb⟩
            intro y hy
            rcases List.mem_cons.mp hy with rfl | hy
            · exact hx
            · exact hall y hy
          · simp [Regex.ends, hx] at hm
    · rintro ⟨ws, hl, hall, hs, hb⟩
      cases ws with
      | nil =>
        left
        simp at hs hb
        exact ⟨hb, hs.symm⟩
      | cons x ws =>
        right
        simp only [List.cons_append] at hs
        subst hs
        refine ⟨(false, ws ++ t), ?_, ?_⟩
        · simp [Regex.ends, hall x (List.mem_cons_self _ _)]
        · refine (ih _).mpr ⟨ws, by simpa using hl, ?_, rfl, by simpa using hb⟩
          intro y hy
          exact hall y (List.mem_cons_of_mem _ hy)

theorem mem_star_cls (f : Char → Bool) (p q : Cursor) :
    q ∈ (Regex.star (.cls f)).ends p ↔
      ∃ ws : List Char, (∀ x ∈ ws, f x = true) ∧ p.2 = ws ++ q.2 ∧
        q.1 = (decide (ws = []) && p.1) := by
  show q ∈ iter (Regex.cls f).ends p.2.length p ↔ _
  rw [mem_iter_cls]
  constructor
  · rintro ⟨ws, -, h⟩
    exact ⟨ws, h⟩
  · rintro ⟨ws, hall, hs, hb⟩
    refine ⟨ws, ?_, hall, hs, hb⟩
    rw [hs, List.length_append]
    exact Nat.le_add_right _ _

theorem mem_cat (r s : Regex) (p q : Cursor) :
    q ∈ (Regex.cat r s).ends p ↔ ∃ m, m ∈ r.ends p ∧ q ∈ s.ends m := by
  simp [Regex.ends, List.mem_flatMap]

theorem mem_cls (f : Char → Bool) (p q : Cursor) :
    q ∈ (Regex.cls f).ends p ↔ ∃ x, f x = true ∧ p.2 = x :: q.2 ∧ q.1 = false := by
  obtain ⟨b, s⟩ := p
  obtain ⟨b2, t⟩ := q
  cases s with
  | nil => simp [Regex.ends]
  | cons y ys =>
    by_cases hy : f y = true
    · simp only [Regex.ends, hy, if_true, List.mem_singleton, Prod.mk.injEq, List.cons.injEq]
      constructor
      · rintro ⟨rfl, rfl⟩
        exact ⟨y, hy, ⟨rfl, rfl⟩, rfl⟩
      · rintro ⟨x, -, ⟨-, rfl⟩, rfl⟩
        exact ⟨rfl, rfl⟩
    · have hf : f y = false := by simpa using hy
      simp only [Regex.ends, hf]
      constructor
      · intro h
        simp at h
      · rintro ⟨x, hx, h, -⟩
        simp only [List.cons.injEq] at h
        rw [← h.1, hf] at hx
        cases hx

theorem mem_endText (p q : Cursor) :
    q ∈ Regex.endText.ends p ↔ q = p ∧ p.2 = [] := by
  obtain ⟨b, s⟩ := p
  cases s <;> simp [Regex.ends]

theorem mem_seq_lit (w : List Char) (e : Regex) (b : Bool) (s : List Char) (q : Cursor) :
    q ∈ (Regex.seq (w.map Regex.lit) e).ends (b, s) ↔
      ∃ t, s = w ++ t ∧ q ∈ e.ends (decide (w = []) && b, t) := by
  induction w generalizing b s with
  | nil => simp [Regex.seq]
  | cons c w ih =>
    simp only [List.map_cons, Regex.seq, mem_cat]
    cases s with
    | nil => simp [Regex.ends]
    | cons x xs =>
      by_cases hx : x = c
      · subst hx
        simp only [Regex.ends, if_true, List.mem_singleton, exists_eq_left, ih,
          List.cons_append, List.cons.injEq, true_and]
        simp
      · simp [Regex.ends, hx]

theorem matchString_beginText (r : Regex) (s : String) :
    MatchString (.cat .beginText r) s = !(r.ends (true, s.toList)).isEmpty := by
  unfold MatchString
  cases s.toList with
  | nil => simp [starts, Regex.ends]
  | cons x xs => simp [starts, Regex.ends, List.any_map]

theorem not_isEmpty_iff {α : Type} (l : List α) : (!l.isEmpty) = true ↔ ∃ q, q ∈ l := by
  cases l with
  | nil => simp
  | cons a l => simp

theorem matchString_daylistPattern_iff (name : String) :
    MatchString daylistPattern name = true ↔ LineShape name.toList := by
  unfold daylistPattern
  rw [matchString_beginText, not_isEmpty_iff]
  simp only [mem_seq_lit, mem_cat, mem_star_cls, mem_cls, mem_endText, LineShape]
  constructor
  · rintro ⟨q, t, hname, m1, ⟨ws1, hws1, ht, -⟩, m2, ⟨c, hc, hm1, -⟩, m3, ⟨ws2, hws2, hm2, -⟩,
      m4, ⟨tail, htail, hm3, -⟩, -, hm4⟩
    refine ⟨ws1, c, ws2, tail, ?_, hws1, hc, hws2, ?_⟩
    · rw [hname, ht, hm1, hm2, hm3, hm4]
      simp
    · intro h
      have := htail _ h
      simp [isAnyNotNL] at this
  · rintro ⟨ws1, c, ws2, tail, hname, hws1, hc, hws2, htail⟩
    refine ⟨(false, []), ws1 ++ [c] ++ ws2 ++ tail, by simpa using hname,
      (decide (ws1 = []) && (decide (daylistWord = []) && true), [c] ++ ws2 ++ tail),
      ⟨ws1, hws1, by simp, rfl⟩,
      (false, ws2 ++ tail), ⟨c, hc, by simp, rfl⟩,
      (decide (ws2 = []) && false, tail), ⟨ws2, hws2, rfl, rfl⟩,
      (false, []), ⟨tail, ?_, by simp, by simp⟩, rfl, rfl⟩
    intro x hx
    simp only [isAnyNotNL, Bool.not_eq_true', decide_eq_false_iff_not]
    rintro rfl
    exact htail hx

/-! ## The matcher computes the relational meaning -/

theorem mem_iter_self (f : Cursor → List Cursor) (n : Nat) (p : Cursor) : p ∈ iter f n p := by
  cases n <;> simp [iter]

theorem iter_mono (f : Cursor → List Cursor) (k n : Nat) (h : k ≤ n) (p q : Cursor)
    (hq : q ∈ iter f k p) : q ∈ iter f n p := by
  induction k generalizing n p with
  | zero =>
    simp only [iter, List.mem_singleton] at hq
    rw [hq]
    exact mem_iter_self f n p
  | succ k ih =>
    obtain ⟨n, rfl⟩ : ∃ j, n = j + 1 := ⟨n - 1, by omega⟩
    simp only [iter, List.mem_cons, List.mem_flatMap] at hq ⊢
    rcases hq with rfl | ⟨m, hm, hq⟩
    · exact Or.inl rfl
    · exact Or.inr ⟨m, hm, ih n (by omega) m hq⟩

theorem spans_of_mem_iter (r : Regex) (ih : ∀ p q, q ∈ r.ends p → Spans r p q) (n : Nat)
    (p q : Cursor) (hq : q ∈ iter r.ends n p) : Spans (.star r) p q := by
  induction n generalizing p with
  | zero =>
    simp only [iter, List.mem_singleton] at hq
    rw [hq]
    exact Spans.starNil r p
  | succ n ihn =>
    simp only [iter, List.mem_cons, List.mem_flatMap] at hq
    rcases hq with rfl | ⟨m, hm, hq⟩
    · exact Spans.starNil r q
    · exact Spans.starCons r p m q (ih p m hm) (ihn m hq)

theorem spans_of_mem_ends (r : Regex) (p q : Cursor) (h : q ∈ r.ends p) : Spans r p q := by
  induction r generalizing p q with
  | beginText =>
    obtain ⟨b, s⟩ := p
    cases b with
    | false => simp [Regex.ends] at h
    | true =>
      simp only [Regex.ends, if_true, List.mem_singleton] at h
      rw [h]
      exact Spans.beginText s
  | endText =>
    obtain ⟨b, s⟩ := p
    cases s with
    | nil =>
      simp only [Regex.ends, List.isEmpty_nil, if_true, List.mem_singleton] at h
      rw [h]
      exact Spans.endText b
    | cons x xs => simp [Regex.ends] at h
  | lit c =>
    obtain ⟨b, s⟩ := p
    cases s with
    | nil => simp [Regex.ends] at h
    | cons x xs =>
      by_cases hx : x = c
      · simp only [Regex.ends, hx, if_true, List.mem_singleton] at h
        rw [h, hx]
        exact Spans.lit b c xs
      · simp [Regex.ends, hx] at h
  | cls f =>
    obtain ⟨b, s⟩ := p
    obtain ⟨x, hx, hp, hq⟩ := (mem_cls f (b, s) q).mp h
    obtain ⟨b2, t⟩ := q
    simp only at hp hq
    rw [hp, hq]
    exact Spans.cls f b x t hx
  | cat r s ihr ihs =>
    obtain ⟨m, hm, hq⟩ := (mem_cat r s p q).mp h
    exact Spans.cat r s p m q (ihr p m hm) (ihs m q hq)
  | star r ihr => exact spans_of_mem_iter r ihr p.2.length p q h

theorem spans_length (r : Regex) (p q : Cursor) (h : Spans r p q) :
    q.2.length ≤ p.2.length ∧ (q.2.length = p.2.length → q = p) := by
  induction h with
  | beginText s => exact ⟨Nat.le_refl _, fun _ => rfl⟩
  | endText b => exact ⟨Nat.le_refl _, fun _ => rfl⟩
  | lit b c s => exact ⟨by simp, fun h => by simp at h⟩
  | cls f b x s hx => exact ⟨by simp, fun h => by simp at h⟩
  | cat r s p m q _ _ ih1 ih2 =>
    refine ⟨Nat.le_trans ih2.1 ih1.1, fun h => ?_⟩
    have hm : m = p := ih1.2 (by omega)
    rw [← hm]
    exact ih2.2 (by rw [hm]; exact h)
  | starNil r p => exact ⟨Nat.le_refl _, fun _ => rfl⟩
  | starCons r p m q _ _ ih1 ih2 =>
    refine ⟨Nat.le_trans ih2.1 ih1.1, fun h => ?_⟩
    have hm : m = p := ih1.2 (by omega)
    rw [← hm]
    exact ih2.2 (by rw [hm]; exact h)

theorem mem_ends_of_spans (r : Regex) (p q : Cursor) (h : Spans r p q) : q ∈ r.ends p := by
  induction h with
  | beginText s => simp [Regex.ends]
  | endText b => simp [Regex.ends]
  | lit b c s => simp [Regex.ends]
  | cls f b x s hx => simp [Regex.ends, hx]
  | cat r s p m q _ _ ih1 ih2 => exact (mem_cat r s p q).mpr ⟨m, ih1, ih2⟩
  | starNil r p => exact mem_iter_self _ _ p
  | starCons r p m q h1 _ ih1 ih2 =>
    show q ∈ iter r.ends p.2.length p
    have hlen := spans_length r p m h1
    by_cases hm : m = p
    · rw [← hm]
      exact ih2
    · have hlt : m.2.length < p.2.length := by
        rcases Nat.lt_or_eq_of_le hlen.1 with h | h
        · exact h
        · exact absurd (hlen.2 h) hm
      obtain ⟨n, hn⟩ : ∃ n, p.2.length = n + 1 := ⟨p.2.length - 1, by omega⟩
      rw [hn]
      simp only [iter, List.mem_cons, List.mem_flatMap]
      exact Or.inr ⟨m, ih1, iter_mono r.ends m.2.length n (by omega) m q ih2⟩

/-- The matcher is exact: the cursors it lists are those the relational
meaning allows. -/
theorem mem_ends_iff_spans (r : Regex) (p q : Cursor) : q ∈ r.ends p ↔ Spans r p q :=
  ⟨spans_of_mem_ends r p q, mem_ends_of_spans r p q⟩

theorem mem_starts (l : List Char) (p : Cursor) :
    p ∈ starts l ↔ ∃ pre : List Char, l = pre ++ p.2 ∧ p.1 = decide (pre = []) := by
  obtain ⟨b, t⟩ := p
  cases l with
  | nil =>
    simp only [starts, List.mem_singleton, Prod.mk.injEq]
    constructor
    · rintro ⟨rfl, rfl⟩
      exact ⟨[], rfl, rfl⟩
    · rintro ⟨pre, hl, hb⟩
      have h := List.append_eq_nil.mp hl.symm
      rw [h.1] at hb
      exact ⟨hb, h.2⟩
  | cons x xs =>
    simp only [starts, List.mem_cons, List.mem_map, List.mem_tails, Prod.mk.injEq]
    constructor
    · rintro (⟨rfl, rfl⟩ | ⟨u, ⟨pre, hpre⟩, rfl, rfl⟩)
      · exact ⟨[], rfl, rfl⟩
      · exact ⟨x :: pre, by simp [← hpre], by simp⟩
    · rintro ⟨pre, hl, hb⟩
      cases pre with
      | nil =>
        left
        exact ⟨hb, hl.symm⟩
      | cons y pre =>
        right
        simp only [List.cons_append, List.cons.injEq] at hl
        exact ⟨t, ⟨pre, hl.2.symm⟩, by simpa using hb.symm, rfl⟩

/-- The text contains a match exactly when some split of it into a prefix and
a rest has a match of the expression begun at the rest. -/
theorem matchString_iff_spans (re : Regex) (s : String) :
    MatchString re s = true ↔
      ∃ (pre rest : List Char) (q : Cursor), s.toList = pre ++ rest ∧
        Spans re (decide (pre = []), rest) q := by
  simp only [MatchString, List.any_eq_true, not_isEmpty_iff, mem_starts, mem_ends_iff_spans]
  constructor
  · rintro ⟨⟨b, rest⟩, ⟨pre, hl, hb⟩, q, hq⟩
    simp only at hl hb
    rw [hb] at hq
    exact ⟨pre, rest, q, hl, hq⟩
  · rintro ⟨pre, rest, q, hl, hq⟩
    exact ⟨(decide (pre = []), rest), ⟨pre, hl, rfl⟩, q, hq⟩

/-! ## Lemmas on the locator and the extractor -/

theorem scanPlaylists_first (pre : List SimplePlaylist) (x : SimplePlaylist)
    (post : List SimplePlaylist)
    (hpre : ∀ y ∈ pre, MatchString daylistPattern y.Name = false)
    (hx : MatchString daylistPattern x.Name = true) :
    scanPlaylists (pre ++ x :: post) = x.ID := by
  induction pre with
  | nil => simp [scanPlaylists, hx]
  | cons y pre ih =>
    have hy := hpre y (List.mem_cons_self _ _)
    simp only [List.cons_append, scanPlaylists, hy]
    exact ih (fun z hz => hpre z (List.mem_cons_of_mem _ hz))

theorem scanPlaylists_none (ps : List SimplePlaylist)
    (h : ∀ y ∈ ps, MatchString daylistPattern y.Name = false) :
    scanPlaylists ps = "" := by
  induction ps with
  | nil => rfl
  | cons y ps ih =>
    have hy := h y (List.mem_cons_self _ _)
    simp only [scanPlaylists, hy]
    exact ih (fun z hz => h z (List.mem_cons_of_mem _ hz))

theorem exists_first_match (ps : List SimplePlaylist)
    (h : ∃ y ∈ ps, MatchString daylistPattern y.Name = true) :
    ∃ pre x post, ps = pre ++ x :: post ∧
      (∀ y ∈ pre, MatchString daylistPattern y.Name = false) ∧
      MatchString daylistPattern x.Name = true := by
  induction ps with
  | nil =>
    obtain ⟨y, hy, -⟩ := h
    cases hy
  | cons z ps ih =>
    by_cases hz : MatchString daylistPattern z.Name = true
    · exact ⟨[], z, ps, rfl, by simp, hz⟩
    · have hz2 : MatchString daylistPattern z.Name = false := by simpa using hz
      obtain ⟨y, hy, hym⟩ := h
      rcases List.mem_cons.mp hy with rfl | hy
      · exact absurd hym hz
      · obtain ⟨pre, x, post, hps, hpre, hx⟩ := ih ⟨y, hy, hym⟩
        refine ⟨z :: pre, x, post, by simp [hps], ?_, hx⟩
        intro w hw
        rcases List.mem_cons.mp hw with rfl | hw
        · exact hz2
        · exact hpre w hw

theorem getPlaylists_fetched (p : Process) (up : Upstream) (page : SimplePlaylistPage)
    (hc : p.client ≠ none) (hfetch : up.playlists = ⟨some page, none⟩) :
    getPlaylists p up =
      .done [Event.call (.currentUsersPlaylists 50)] (scanPlaylists page.Playlists) := by
  obtain ⟨client⟩ := p
  cases client with
  | none => exact absurd rfl hc
  | some c => simp [getPlaylists, getClient, hfetch]

theorem getPlaylists_failed (p : Process) (up : Upstream) (e : String)
    (hc : p.client ≠ none) (hfetch : up.playlists = ⟨none, some e⟩) :
    getPlaylists p up =
      .panic [Event.call (.currentUsersPlaylists 50),
        Event.json StatusInternalServerError ⟨some "Internal Server Error", none, none⟩,
        Event.log e] := by
  obtain ⟨client⟩ := p
  cases client with
  | none => exact absurd rfl hc
  | some c => simp [getPlaylists, getClient, hfetch]

theorem appendArtists_eq (acc : List String) (artists : List SimpleArtist) :
    appendArtists acc artists = acc ++ artists.map (fun a => a.Name) := by
  induction artists generalizing acc with
  | nil => simp [appendArtists]
  | cons a rest ih => simp [appendArtists, ih]

theorem appendTracks_eq (acc : List Track) (items : List PlaylistItem)
    (fts : List FullTrack) (h : items.map (fun it => it.Track.Track) = fts.map some) :
    appendTracks acc items =
      some (acc ++ fts.map (fun ft => ⟨ft.Artists.map (fun a => a.Name), ft.Name⟩)) := by
  induction items generalizing acc fts with
  | nil =>
    cases fts with
    | nil => simp [appendTracks]
    | cons ft fts => simp at h
  | cons it rest ih =>
    cases fts with
    | nil => simp at h
    | cons ft fts =>
      simp only [List.map_cons, List.cons.injEq] at h
      simp only [appendTracks, h.1, appendArtists_eq, List.nil_append]
      rw [ih _ fts h.2]
      simp

theorem exists_fullTracks (items : List PlaylistItem)
    (h : ∀ it ∈ items, it.Track.Track ≠ none) :
    ∃ fts : List FullTrack, items.map (fun it => it.Track.Track) = fts.map some := by
  induction items with
  | nil => exact ⟨[], rfl⟩
  | cons it rest ih =>
    obtain ⟨fts, hfts⟩ := ih (fun x hx => h x (List.mem_cons_of_mem _ hx))
    have hit := h it (List.mem_cons_self _ _)
    cases hft : it.Track.Track with
    | none => exact absurd hft hit
    | some ft => exact ⟨ft :: fts, by simp [hft, hfts]⟩

theorem getDaylist_success (p : Process) (up : Upstream) (t : List Event) (id : String)
    (page : PlaylistItemPage) (fts : List FullTrack)
    (hp : getPlaylists p up = .done t id) (hid : id ≠ "")
    (hitems : up.items id = ⟨some page, none⟩)
    (hfts : page.Items.map (fun it => it.Track.Track) = fts.map some) :
    getDaylist p up =
      .done (t ++ [Event.call (.getPlaylistItems id),
        Event.json 200 ⟨some "success", none,
          some ⟨fts.map (fun ft => ⟨ft.Artists.map (fun a => a.Name), ft.Name⟩)⟩⟩]) () := by
  obtain ⟨client⟩ := p
  cases client with
  | none => simp [getPlaylists, getClient] at hp
  | some c =>
    simp [getDaylist, hp, hid, getClient, hitems, appendTracks_eq [] page.Items fts hfts]

theorem redirects_append (a b : List Event) : redirects (a ++ b) = redirects a ++ redirects b := by
  induction a with
  | nil => rfl
  | cons e a ih => cases e <;> simp [redirects, ih]

theorem redirects_getPlaylists (p : Process) (up : Upstream) :
    redirects (getPlaylists p up).trace = [] := by
  unfold getPlaylists
  cases getClient p <;> cases up.playlists.err <;> cases up.playlists.value <;>
    simp [Run.trace, redirects]

theorem redirects_getDaylist (p : Process) (up : Upstream) :
    redirects (getDaylist p up).trace = [] := by
  have h := redirects_getPlaylists p up
  unfold getDaylist
  cases hg : getPlaylists p up with
  | panic t =>
    rw [hg] at h
    simpa [Run.trace] using h
  | done t id =>
    rw [hg] at h
    simp only [Run.trace] at h
    by_cases hid : id = ""
    · simp [hid, Run.trace, redirects_append, h, redirects]
    · simp only [hid, if_false]
      cases getClient p with
      | none => simpa [Run.trace] using h
      | some c =>
        simp only
        cases (up.items id).err with
        | some e => simp [Run.trace, redirects_append, h, redirects]
        | none =>
          cases (up.items id).value with
          | none => simp [Run.trace, redirects_append, h, redirects]
          | some page =>
            cases hat : appendTracks [] page.Items <;>
              simp [hat, Run.trace, redirects_append, h, redirects]

theorem serve_callback_client (AuthURL : String → String) (p : Process) (up : Upstream) :
    (serve AuthURL p (.callback up)).1 = ⟨some ⟨up.token.value⟩⟩ := by
  simp only [serve, authRedirectHandler, setClient]
  cases up.currentUser.value <;> rfl

theorem serve_client_ne_none (AuthURL : String → String) (p : Process) (r : Request)
    (h : p.client ≠ none) : (serve AuthURL p r).1.client ≠ none := by
  cases r with
  | root => exact h
  | callback up => simp [serve_callback_client]
  | daylist up => exact h

theorem serveAll_client_ne_none (AuthURL : String → String) (p : Process) (rs : List Request)
    (h : p.client ≠ none) : (serveAll AuthURL p rs).client ≠ none := by
  induction rs generalizing p with
  | nil => exact h
  | cons r rs ih => exact ih _ (serve_client_ne_none AuthURL p r h)

theorem serve_daylist_passes (AuthURL : String → String) (p : Process) (up : Upstream)
    (h : p.client ≠ none) :
    serve AuthURL p (.daylist up) = (p, getDaylist p up) := by
  simp [serve, authMiddleware, getClient, h]

theorem flattened_index (items : List PlaylistItem) (fts : List FullTrack)
    (hfts : items.map (fun it => it.Track.Track) = fts.map some)
    (i : Nat) (tr : Track) (item : PlaylistItem) (ft : FullTrack)
    (htr : (fts.map (fun ft => (⟨ft.Artists.map (fun a => a.Name), ft.Name⟩ : Track)))[i]? =
      some tr)
    (hitem : items[i]? = some item) (hft : item.Track.Track = some ft) :
    tr = ⟨ft.Artists.map (fun a => a.Name), ft.Name⟩ := by
  have h1 : (items.map (fun it => it.Track.Track))[i]? = some (some ft) := by
    rw [List.getElem?_map, hitem]
    simp [hft]
  rw [hfts, List.getElem?_map] at h1
  rw [List.getElem?_map] at htr
  cases hi : fts[i]? with
  | none => simp [hi] at h1
  | some ft2 =>
    rw [hi] at h1 htr
    simp only [Option.map_some', Option.some.injEq] at h1 htr
    rw [← htr, h1]

theorem flattened_length (items : List PlaylistItem) (fts : List FullTrack)
    (hfts : items.map (fun it => it.Track.Track) = fts.map some) :
    (fts.map (fun ft => (⟨ft.Artists.map (fun a => a.Name), ft.Name⟩ : Track))).length =
      items.length := by
  have h := congrArg List.length hfts
  simp only [List.length_map] at h
  simp [h]

/-- Without any callback among the requests served so far, `/daylist` is
answered by the redirect. -/
theorem daylist_redirects_without_callback (AuthURL : String → String) (rs : List Request)
    (up : Upstream) (h : ∀ r ∈ rs, ∀ u, r ≠ Request.callback u) :
    serve AuthURL (serveAll AuthURL Process.init rs) (.daylist up) =
      (Process.init,
        .done [Event.redirect StatusTemporaryRedirect (AuthURL state), Event.abort] ()) := by
  have hs : serveAll AuthURL Process.init rs = Process.init := by
    generalize Process.init = p
    induction rs with
    | nil => rfl
    | cons r rs ih =>
      have hr := h r (List.mem_cons_self _ _)
      have ih2 := ih (fun x hx => h x (List.mem_cons_of_mem _ hx))
      cases r with
      | root => simpa [serveAll, serve] using ih2
      | callback u => exact absurd rfl (hr u)
      | daylist u => simpa [serveAll, serve] using ih2
  rw [hs]
  simp [serve, authMiddleware, getClient, Process.init, authURL]

/-! ## The playlist-name matcher -/

/-- C1: the matcher of `getPlaylists` accepts `daylist - mix`, `daylist: anything`
and `daylist   ~   x`, and rejects `mydaylist`, `daylist` and `Daylist - mix`. -/
theorem matcher_examples :
    MatchString daylistPattern "daylist - mix" = true ∧
    MatchString daylistPattern "daylist: anything" = true ∧
    MatchString daylistPattern "daylist   ~   x" = true ∧
    MatchString daylistPattern "mydaylist" = false ∧
    MatchString daylistPattern "daylist" = false ∧
    MatchString daylistPattern "Daylist - mix" = false := by
  decide

/-- C2, as stated, fails: the name `daylist-a`, line feed, `b` has the claimed
shape (the tail is `a`, line feed, `b`) and the matcher rejects it, since `.`
does not match a line feed and `$` is the end of the text. -/
theorem matcher_rejects_tail_with_line_feed :
    ¬ (MatchString daylistPattern "daylist-a\nb" = true ↔ ClaimedShape "daylist-a\nb".toList) := by
  intro h
  have hshape : ClaimedShape "daylist-a\nb".toList := by
    refine ⟨[], '-', [], ['a', '\n', 'b'], ?_, ?_, ?_, ?_⟩
    · decide
    · simp
    · decide
    · simp
  have hrej : MatchString daylistPattern "daylist-a\nb" = false := by decide
  rw [h.mpr hshape] at hrej
  cases hrej

/-- C2, amended: the matcher of `getPlaylists` accepts a name if and only if
the name is the literal `daylist`, then zero or more characters of
`[\t\n\f\r ]`, then one character outside `[0-9A-Za-z_]`, then zero or more
characters of `[\t\n\f\r ]`, then any string that holds no line feed. -/
theorem matcher_accepts_iff (name : String) :
    MatchString daylistPattern name = true ↔ LineShape name.toList :=
  matchString_daylistPattern_iff name

/-! ## The playlist locator -/

/-- C3: after a successful fetch of a list in which some name is accepted,
`getPlaylists` returns the identifier of the first playlist whose name is
accepted; so when one playlist only has an accepted name, its identifier is
returned wherever it stands in the list. -/
theorem getPlaylists_returns_first_match (p : Process) (up : Upstream)
    (page : SimplePlaylistPage) (hc : p.client ≠ none)
    (hfetch : up.playlists = ⟨some page, none⟩) :
    ((∃ y ∈ page.Playlists, MatchString daylistPattern y.Name = true) →
      ∃ pre x post, page.Playlists = pre ++ x :: post ∧
        (∀ y ∈ pre, MatchString daylistPattern y.Name = false) ∧
        MatchString daylistPattern x.Name = true ∧
        getPlaylists p up = .done [Event.call (.currentUsersPlaylists 50)] x.ID) ∧
    (∀ pre x post, page.Playlists = pre ++ x :: post →
      MatchString daylistPattern x.Name = true →
      (∀ y ∈ pre ++ post, MatchString daylistPattern y.Name = false) →
      getPlaylists p up = .done [Event.call (.currentUsersPlaylists 50)] x.ID) := by
  rw [getPlaylists_fetched p up page hc hfetch]
  constructor
  · intro h
    obtain ⟨pre, x, post, hps, hpre, hx⟩ := exists_first_match page.Playlists h
    refine ⟨pre, x, post, hps, hpre, hx, ?_⟩
    rw [hps, scanPlaylists_first pre x post hpre hx]
  · intro pre x post hps hx hrest
    rw [hps, scanPlaylists_first pre x post
      (fun y hy => hrest y (List.mem_append.mpr (Or.inl hy))) hx]

/-- Witness of C3: among `Discover Weekly`, a daylist and `mydaylist`, the
identifier of the daylist is returned. -/
theorem getPlaylists_returns_first_match_witness :
    loggedIn.client ≠ none ∧ sampleUpstream.playlists = ⟨some samplePlaylists, none⟩ ∧
      MatchString daylistPattern "daylist • chill monday morning" = true ∧
      (∀ y ∈ [⟨"id1", "Discover Weekly"⟩] ++ [(⟨"id3", "mydaylist"⟩ : SimplePlaylist)],
        MatchString daylistPattern y.Name = false) ∧
      getPlaylists loggedIn sampleUpstream =
        .done [Event.call (.currentUsersPlaylists 50)] "id2" :=
  have hc : loggedIn.client ≠ none := by decide
  have hall : ∀ y ∈ [⟨"id1", "Discover Weekly"⟩] ++ [(⟨"id3", "mydaylist"⟩ : SimplePlaylist)],
      MatchString daylistPattern y.Name = false := by decide
  ⟨hc, rfl, by decide, hall,
    (getPlaylists_returns_first_match loggedIn sampleUpstream samplePlaylists hc rfl).2
      [⟨"id1", "Discover Weekly"⟩] ⟨"id2", "daylist • chill monday morning"⟩
      [⟨"id3", "mydaylist"⟩] rfl (by decide) hall⟩

/-- C4 fails on the code: when the fetch returns nil and an error,
`getPlaylists` writes the 500 body, logs, and then panics on
`response.Playlists`; it does not return the empty identifier. -/
theorem getPlaylists_panics_on_failed_fetch (c : Client) (e : String) (tk : Reply String)
    (cu : Reply PrivateUser) (items : String → Reply PlaylistItemPage) :
    getPlaylists ⟨some c⟩ ⟨tk, cu, ⟨none, some e⟩, items⟩ =
        .panic [Event.call (.currentUsersPlaylists 50),
          Event.json StatusInternalServerError ⟨some "Internal Server Error", none, none⟩,
          Event.log e] ∧
      (getPlaylists ⟨some c⟩ ⟨tk, cu, ⟨none, some e⟩, items⟩).panicked = true ∧
      ∀ t, getPlaylists ⟨some c⟩ ⟨tk, cu, ⟨none, some e⟩, items⟩ ≠ .done t "" := by
  have h := getPlaylists_failed ⟨some c⟩ ⟨tk, cu, ⟨none, some e⟩, items⟩ e (by simp) rfl
  refine ⟨h, by rw [h]; rfl, ?_⟩
  intro t ht
  rw [h] at ht
  cases ht

/-- C8: after a successful fetch of a list in which no name is accepted, and
so of the empty list, `getPlaylists` returns the empty identifier. -/
theorem getPlaylists_returns_empty (p : Process) (up : Upstream)
    (page : SimplePlaylistPage) (hc : p.client ≠ none)
    (hfetch : up.playlists = ⟨some page, none⟩) :
    ((∀ y ∈ page.Playlists, MatchString daylistPattern y.Name = false) →
      getPlaylists p up = .done [Event.call (.currentUsersPlaylists 50)] "") ∧
    (page.Playlists = [] →
      getPlaylists p up = .done [Event.call (.currentUsersPlaylists 50)] "") := by
  rw [getPlaylists_fetched p up page hc hfetch]
  constructor
  · intro h
    rw [scanPlaylists_none page.Playlists h]
  · intro h
    rw [h]
    rfl

/-- Witness of C8: a list of three names, none accepted. -/
theorem getPlaylists_returns_empty_witness :
    loggedIn.client ≠ none ∧ otherUpstream.playlists = ⟨some otherPlaylists, none⟩ ∧
      (∀ y ∈ otherPlaylists.Playlists, MatchString daylistPattern y.Name = false) ∧
      getPlaylists loggedIn otherUpstream =
        .done [Event.call (.currentUsersPlaylists 50)] "" :=
  have hc : loggedIn.client ≠ none := by decide
  have hall : ∀ y ∈ otherPlaylists.Playlists, MatchString daylistPattern y.Name = false := by
    decide
  ⟨hc, rfl, hall, (getPlaylists_returns_empty loggedIn otherUpstream otherPlaylists hc rfl).1 hall⟩

/-! ## The auth gate -/

/-- C5 fails on the code: after a callback whose token exchange fails (and no
successful callback), `client` is set, to a client built on the nil token, and
the next request to `/daylist` is not answered by a redirect: it is passed to
`getDaylist`, which runs. -/
theorem failed_callback_opens_gate (AuthURL : String → String) (up : Upstream) :
    (Request.callback failingUpstream).isSuccessfulCallback = false ∧
      serveAll AuthURL Process.init [.callback failingUpstream] = ⟨some ⟨none⟩⟩ ∧
      serve AuthURL (serveAll AuthURL Process.init [.callback failingUpstream]) (.daylist up) =
        (⟨some ⟨none⟩⟩, getDaylist ⟨some ⟨none⟩⟩ up) ∧
      redirects (serve AuthURL (serveAll AuthURL Process.init [.callback failingUpstream])
        (.daylist up)).2.trace = [] ∧
      getDaylist ⟨some ⟨none⟩⟩ failingUpstream =
        .panic [Event.call (.currentUsersPlaylists 50),
          Event.json StatusInternalServerError ⟨some "Internal Server Error", none, none⟩,
          Event.log "playlists error"] := by
  have hs : serveAll AuthURL Process.init [.callback failingUpstream] = ⟨some ⟨none⟩⟩ := rfl
  rw [hs, serve_daylist_passes AuthURL ⟨some ⟨none⟩⟩ up (by simp)]
  exact ⟨rfl, rfl, rfl, redirects_getDaylist _ _, rfl⟩

/-- C6: once a callback has succeeded, and so stored the client built on the
token it obtained, `client` is set in every state reached by any later
sequence of requests, and every `/daylist` request served there is passed to
`getDaylist` and writes no redirect. -/
theorem handle_stays_after_successful_callback (AuthURL : String → String) (p : Process)
    (up : Upstream) (hs : (Request.callback up).isSuccessfulCallback = true)
    (rs : List Request) (up2 : Upstream) :
    (∃ tok, up.token.value = some tok ∧
        (serve AuthURL p (.callback up)).1 = ⟨some ⟨some tok⟩⟩) ∧
      (serveAll AuthURL (serve AuthURL p (.callback up)).1 rs).client ≠ none ∧
      serve AuthURL (serveAll AuthURL (serve AuthURL p (.callback up)).1 rs) (.daylist up2) =
        (serveAll AuthURL (serve AuthURL p (.callback up)).1 rs,
          getDaylist (serveAll AuthURL (serve AuthURL p (.callback up)).1 rs) up2) ∧
      redirects (serve AuthURL (serveAll AuthURL (serve AuthURL p (.callback up)).1 rs)
        (.daylist up2)).2.trace = [] := by
  have h0 : ∃ tok, up.token.value = some tok := by
    simp only [Request.isSuccessfulCallback, Bool.and_eq_true] at hs
    exact Option.isSome_iff_exists.mp hs.2
  obtain ⟨tok, htok⟩ := h0
  have h1 : (serve AuthURL p (.callback up)).1.client ≠ none := by
    simp [serve_callback_client]
  have h2 := serveAll_client_ne_none AuthURL _ rs h1
  have h3 := serve_daylist_passes AuthURL _ up2 h2
  refine ⟨⟨tok, htok, by rw [serve_callback_client, htok]⟩, h2, h3, ?_⟩
  rw [h3]
  exact redirects_getDaylist _ _

/-- Witness of C6: a successful callback at start, then a greeting, a failed
callback and a failed `/daylist`, then a `/daylist` request. -/
theorem handle_stays_after_successful_callback_witness :
    (Request.callback sampleUpstream).isSuccessfulCallback = true ∧
      (serveAll (fun x => x) (serve (fun x => x) Process.init (.callback sampleUpstream)).1
        [.root, .callback failingUpstream, .daylist failingUpstream]).client ≠ none ∧
      redirects (serve (fun x => x)
        (serveAll (fun x => x) (serve (fun x => x) Process.init (.callback sampleUpstream)).1
          [.root, .callback failingUpstream, .daylist failingUpstream])
        (.daylist sampleUpstream)).2.trace = [] :=
  have h := handle_stays_after_successful_callback (fun x => x) Process.init sampleUpstream rfl
    [.root, .callback failingUpstream, .daylist failingUpstream] sampleUpstream
  ⟨rfl, h.2.1, h.2.2.2⟩

/-! ## The track extractor -/

/-- C7: when the playlist is located and its N items are fetched, each with a
track, `getDaylist` answers with a playlist of exactly N tracks, and the i-th
track has as many artists as the track of the i-th item. -/
theorem getDaylist_track_and_artist_counts (p : Process) (up : Upstream) (t : List Event)
    (id : String) (page : PlaylistItemPage)
    (hp : getPlaylists p up = .done t id) (hid : id ≠ "")
    (hitems : up.items id = ⟨some page, none⟩)
    (hall : ∀ it ∈ page.Items, it.Track.Track ≠ none) :
    ∃ tracks : List Track,
      getDaylist p up =
        .done (t ++ [Event.call (.getPlaylistItems id),
          Event.json 200 ⟨some "success", none, some ⟨tracks⟩⟩]) () ∧
      tracks.length = page.Items.length ∧
      ∀ (i : Nat) (tr : Track) (item : PlaylistItem) (ft : FullTrack),
        tracks[i]? = some tr → page.Items[i]? = some item → item.Track.Track = some ft →
        tr.Artists.length = ft.Artists.length := by
  obtain ⟨fts, hfts⟩ := exists_fullTracks page.Items hall
  refine ⟨_, getDaylist_success p up t id page fts hp hid hitems hfts,
    flattened_length page.Items fts hfts, ?_⟩
  intro i tr item ft htr hitem hft
  rw [flattened_index page.Items fts hfts i tr item ft htr hitem hft]
  simp

/-- Witness of C7: the sample daylist of two items. -/
theorem getDaylist_track_and_artist_counts_witness :
    getPlaylists loggedIn sampleUpstream =
        .done [Event.call (.currentUsersPlaylists 50)] "id2" ∧
      "id2" ≠ "" ∧ sampleUpstream.items "id2" = ⟨some sampleItems, none⟩ ∧
      (∀ it ∈ sampleItems.Items, it.Track.Track ≠ none) ∧
      ∃ tracks : List Track,
        getDaylist loggedIn sampleUpstream =
          .done ([Event.call (.currentUsersPlaylists 50)] ++ [Event.call (.getPlaylistItems "id2"),
            Event.json 200 ⟨some "success", none, some ⟨tracks⟩⟩]) () ∧
        tracks.length = sampleItems.Items.length ∧
        ∀ (i : Nat) (tr : Track) (item : PlaylistItem) (ft : FullTrack),
          tracks[i]? = some tr → sampleItems.Items[i]? = some item →
          item.Track.Track = some ft → tr.Artists.length = ft.Artists.length :=
  have hp : getPlaylists loggedIn sampleUpstream =
      .done [Event.call (.currentUsersPlaylists 50)] "id2" := by decide
  have hall : ∀ it ∈ sampleItems.Items, it.Track.Track ≠ none := by decide
  ⟨hp, by decide, rfl, hall,
    getDaylist_track_and_artist_counts loggedIn sampleUpstream _ "id2" sampleItems hp
      (by decide) rfl hall⟩

/-- C10: when the playlist is located and its items are fetched, each with a
track, the i-th track of the answer of `getDaylist` has the name of the track
of the i-th item as its title and the names of its artists, in their order,
as its artists; the answer has as many tracks as there are items. -/
theorem getDaylist_preserves_order_and_content (p : Process) (up : Upstream)
    (t : List Event) (id : String) (page : PlaylistItemPage)
    (hp : getPlaylists p up = .done t id) (hid : id ≠ "")
    (hitems : up.items id = ⟨some page, none⟩)
    (hall : ∀ it ∈ page.Items, it.Track.Track ≠ none) :
    ∃ tracks : List Track,
      getDaylist p up =
        .done (t ++ [Event.call (.getPlaylistItems id),
          Event.json 200 ⟨some "success", none, some ⟨tracks⟩⟩]) () ∧
      tracks.length = page.Items.length ∧
      ∀ (i : Nat) (tr : Track) (item : PlaylistItem) (ft : FullTrack),
        tracks[i]? = some tr → page.Items[i]? = some item → item.Track.Track = some ft →
        tr.Title = ft.Name ∧ tr.Artists = ft.Artists.map (fun a => a.Name) := by
  obtain ⟨fts, hfts⟩ := exists_fullTracks page.Items hall
  refine ⟨_, getDaylist_success p up t id page fts hp hid hitems hfts,
    flattened_length page.Items fts hfts, ?_⟩
  intro i tr item ft htr hitem hft
  rw [flattened_index page.Items fts hfts i tr item ft htr hitem hft]
  exact ⟨rfl, rfl⟩

/-- Witness of C10: the answer for the sample daylist of two items. -/
theorem getDaylist_preserves_order_and_content_witness :
    getPlaylists loggedIn sampleUpstream =
        .done [Event.call (.currentUsersPlaylists 50)] "id2" ∧
      "id2" ≠ "" ∧ sampleUpstream.items "id2" = ⟨some sampleItems, none⟩ ∧
      (∀ it ∈ sampleItems.Items, it.Track.Track ≠ none) ∧
      ∃ tracks : List Track,
        getDaylist loggedIn sampleUpstream =
          .done ([Event.call (.currentUsersPlaylists 50)] ++ [Event.call (.getPlaylistItems "id2"),
            Event.json 200 ⟨some "success", none, some ⟨tracks⟩⟩]) () ∧
        tracks.length = sampleItems.Items.length ∧
        ∀ (i : Nat) (tr : Track) (item : PlaylistItem) (ft : FullTrack),
          tracks[i]? = some tr → sampleItems.Items[i]? = some item →
          item.Track.Track = some ft →
          tr.Title = ft.Name ∧ tr.Artists = ft.Artists.map (fun a => a.Name) :=
  have hp : getPlaylists loggedIn sampleUpstream =
      .done [Event.call (.currentUsersPlaylists 50)] "id2" := by decide
  have hall : ∀ it ∈ sampleItems.Items, it.Track.Track ≠ none := by decide
  ⟨hp, by decide, rfl, hall,
    getDaylist_preserves_order_and_content loggedIn sampleUpstream _ "id2" sampleItems hp
      (by decide) rfl hall⟩

/-! ## Not found and failures -/

/-- C9: when the playlists are fetched and no name is accepted, `getDaylist`
writes one response only, with status 200 and the message that no daylist was
found, without data, and requests no items; when the fetch of the playlists
fails (nil and an error), or the fetch of the items fails, the only response
written is the 500 one. -/
theorem getDaylist_not_found_and_failures (p : Process) (up : Upstream)
    (hc : p.client ≠ none) :
    (∀ page, up.playlists = ⟨some page, none⟩ →
      (∀ y ∈ page.Playlists, MatchString daylistPattern y.Name = false) →
      getDaylist p up =
          .done [Event.call (.currentUsersPlaylists 50),
            Event.json 200 ⟨some "Sorry, We couldn't find a daylist playlist", none, none⟩] () ∧
        jsonStatuses (getDaylist p up).trace = [200] ∧
        itemRequests (getDaylist p up).trace = []) ∧
    (∀ e, up.playlists = ⟨none, some e⟩ →
      getDaylist p up =
          .panic [Event.call (.currentUsersPlaylists 50),
            Event.json 500 ⟨some "Internal Server Error", none, none⟩, Event.log e] ∧
        jsonStatuses (getDaylist p up).trace = [500]) ∧
    (∀ page e, up.playlists = ⟨some page, none⟩ → scanPlaylists page.Playlists ≠ "" →
      (up.items (scanPlaylists page.Playlists)).err = some e →
      getDaylist p up =
          .done [Event.call (.currentUsersPlaylists 50),
            Event.call (.getPlaylistItems (scanPlaylists page.Playlists)),
            Event.json 500 ⟨some "Internal Server Error", none, none⟩, Event.log e] () ∧
        jsonStatuses (getDaylist p up).trace = [500]) := by
  refine ⟨?_, ?_, ?_⟩
  · intro page hfetch hnone
    have h : getDaylist p up =
        .done [Event.call (.currentUsersPlaylists 50),
          Event.json 200 ⟨some "Sorry, We couldn't find a daylist playlist", none, none⟩] () := by
      simp [getDaylist, getPlaylists_fetched p up page hc hfetch,
        scanPlaylists_none page.Playlists hnone, StatusOK]
    rw [h]
    exact ⟨rfl, rfl, rfl⟩
  · intro e hfetch
    have h : getDaylist p up =
        .panic [Event.call (.currentUsersPlaylists 50),
          Event.json 500 ⟨some "Internal Server Error", none, none⟩, Event.log e] := by
      simp [getDaylist, getPlaylists_failed p up e hc hfetch, StatusInternalServerError]
    rw [h]
    exact ⟨rfl, rfl⟩
  · intro page e hfetch hid herr
    have h : getDaylist p up =
        .done [Event.call (.currentUsersPlaylists 50),
          Event.call (.getPlaylistItems (scanPlaylists page.Playlists)),
          Event.json 500 ⟨some "Internal Server Error", none, none⟩, Event.log e] () := by
      obtain ⟨client⟩ := p
      cases client with
      | none => exact absurd rfl hc
      | some c =>
        simp [getDaylist, getPlaylists_fetched ⟨some c⟩ up page hc hfetch, hid, getClient, herr,
          StatusInternalServerError]
    rw [h]
    exact ⟨rfl, rfl⟩

/-- Witness of C9: a provider without a daylist, one that fails the fetch of
the playlists, and one that fails the fetch of the items. -/
theorem getDaylist_not_found_and_failures_witness :
    loggedIn.client ≠ none ∧
      jsonStatuses (getDaylist loggedIn otherUpstream).trace = [200] ∧
      itemRequests (getDaylist loggedIn otherUpstream).trace = [] ∧
      jsonStatuses (getDaylist loggedIn failingUpstream).trace = [500] ∧
      jsonStatuses (getDaylist loggedIn itemFailingUpstream).trace = [500] :=
  have hc : loggedIn.client ≠ none := by decide
  have h1 := (getDaylist_not_found_and_failures loggedIn otherUpstream hc).1 otherPlaylists rfl
    (by decide)
  have h2 := (getDaylist_not_found_and_failures loggedIn failingUpstream hc).2.1
    "playlists error" rfl
  have h3 := (getDaylist_not_found_and_failures loggedIn itemFailingUpstream hc).2.2
    samplePlaylists "items error" rfl (by decide) rfl
  ⟨hc, h1.2.1, h1.2.2, h2.2, h3.2⟩

end Sync
